import Mathlib

/-!
Verification of the boltdb storage adapter of go-ap/storage.

The adapter (src/boltdb/boltdb.go) stores activitystreams items in a bolt
key-value file under one root bucket with four sub-buckets (actors,
activities, objects, collections).  Keys are the items' IRIs as byte
strings; bolt iterates keys in lexicographic byte order.  The external
collaborators (the jsonld codec, the activitystreams item conversions and
the bolt engine's ordered cursor) are modelled as parameters or as their
documented ordered-map semantics.
-/

namespace BoltStore

/-- Keys of the key-value engine are Go byte slices.  All keys handled by
the adapter are valid UTF-8 IRIs, for which byte-wise lexicographic order
coincides with code-point lexicographic order, so a key is modelled as a
list of characters. -/
abbrev Key := List Char

/-- Strict lexicographic order on keys; models bytes.Compare(a, b) < 0,
which is the order in which a bolt cursor visits keys. -/
def keyLt : Key → Key → Bool
  | [], [] => false
  | [], _ :: _ => true
  | _ :: _, [] => false
  | a :: as, b :: bs => decide (a < b) || (decide (a = b) && keyLt as bs)

/-- Models bytes.HasPrefix(k, p) (argument order: keyPfx p k). -/
def keyPfx : Key → Key → Bool
  | [], _ => true
  | _ :: _, [] => false
  | a :: as, b :: bs => decide (a = b) && keyPfx as bs

/-- Models strings.Contains(s, sub). -/
def containsSub : Key → Key → Bool
  | [], sub => keyPfx sub []
  | c :: t, sub => keyPfx sub (c :: t) || containsSub t sub

/-- An activitystreams Item as seen by the adapter: its canonical
identifier (it.GetID, whose bytes it.GetLink are the storage key) and its
type tag (it.GetType).  The external library converts an Item to a
concrete sub-type by a type switch on the Item's dynamic representation
(as.ToActivity, as.ToPlace, ...); each conversion either succeeds with
the same underlying value or fails returning a nil pointer and an error.
The outcome of each conversion is a property of the Item's dynamic type
and is carried here as a boolean field per conversion. -/
structure Item where
  id : String
  tp : String
  toActivityOk : Bool := true
  toPlaceOk : Bool := true
  toProfileOk : Bool := true
  toRelationshipOk : Bool := true
  toTombstoneOk : Bool := true
  toObjectOk : Bool := true
deriving DecidableEq, Repr

/-- The storage key of an item: the bytes of it.GetLink(). -/
def Item.key (it : Item) : Key := it.id.toList

/-- Error kinds produced by the adapter (the Go code returns error values
built from format strings; only the kind is relevant here). -/
inductive Err
  | invalidBucket
  | nonWritable
  | codec
  | putFailed
deriving DecidableEq, Repr

/-- One bolt sub-bucket: its key-ordered entry list (bolt stores keys in
lexicographic byte order) and whether it is writable in an update
transaction. -/
structure Bucket where
  entries : List (Key × String)
  writable : Bool := true
deriving DecidableEq, Repr

/-- The four sub-bucket names reserved by the adapter. -/
inductive BucketID
  | actors
  | activities
  | objects
  | collections
deriving DecidableEq, Repr

/-- Bucket name constants (bucketActors etc. in the source) as byte
strings, used by the substring classification in LoadCollection. -/
def bucketActorsKey : Key := "actors".toList

def bucketActivitiesKey : Key := "activities".toList

def bucketObjectsKey : Key := "objects".toList

/-- The boltDB repository state: whether the root bucket exists and is
writable, and the four sub-buckets (none models rb.Bucket(name) == nil). -/
structure DB where
  rootOk : Bool := true
  rootWritable : Bool := true
  actors : Option Bucket := some {entries := []}
  activities : Option Bucket := some {entries := []}
  objects : Option Bucket := some {entries := []}
  collections : Option Bucket := some {entries := []}
deriving DecidableEq, Repr

/-- rb.Bucket(name) for the four reserved names. -/
def DB.bucket (db : DB) : BucketID → Option Bucket
  | .actors => db.actors
  | .activities => db.activities
  | .objects => db.objects
  | .collections => db.collections

/-- Replacing one sub-bucket (the effect of a committed write
transaction touching that bucket). -/
def DB.setBucket (db : DB) : BucketID → Option Bucket → DB
  | .actors, b => {db with actors := b}
  | .activities, b => {db with activities := b}
  | .objects, b => {db with objects := b}
  | .collections, b => {db with collections := b}

/-- Cursor positioning c.Seek(p): the suffix of the ordered entry list
starting at the first key not strictly below p. -/
def seekTo (es : List (Key × String)) (p : Key) : List (Key × String) :=
  es.dropWhile (fun e => keyLt e.1 p)

/-- The cursor loop for one filter prefix p:
for k, v := c.Seek(p); k != nil && bytes.HasPrefix(k, p); k, v = c.Next(). -/
def scanPfx (es : List (Key × String)) (p : Key) : List (Key × String) :=
  (seekTo es p).takeWhile (fun e => keyPfx p e.1)

/-- loadFromBucket(db, root, bucket, f).  The jsonld/activitystreams
decoder as.UnmarshalJSON is the parameter dec; a value it fails on is
skipped.  f.IRIs() is the parameter iris (each IRI's bytes are one scan
prefix).  bolt's Bucket.Cursor() never returns nil for a live bucket, so
the nil-cursor branch of the source is not reachable in the model.  The
returned triple mirrors "return col, uint(len(col)), err". -/
def loadFromBucket (db : DB) (bid : BucketID) (dec : String → Option Item)
    (iris : List Key) : List Item × Nat × Option Err :=
  let ce : List Item × Option Err :=
    if !db.rootOk then ([], some Err.invalidBucket)
    else
      match db.bucket bid with
      | none => ([], some Err.invalidBucket)
      | some b =>
        (iris.foldl
          (fun col p => col ++ (scanPfx b.entries p).filterMap (fun e => dec e.2))
          [], none)
  (ce.1, ce.1.length, ce.2)

/-- LoadActivities. -/
def loadActivities (db : DB) (dec : String → Option Item) (iris : List Key) :
    List Item × Nat × Option Err :=
  loadFromBucket db .activities dec iris

/-- LoadObjects. -/
def loadObjects (db : DB) (dec : String → Option Item) (iris : List Key) :
    List Item × Nat × Option Err :=
  loadFromBucket db .objects dec iris

/-- LoadActors. -/
def loadActors (db : DB) (dec : String → Option Item) (iris : List Key) :
    List Item × Nat × Option Err :=
  loadFromBucket db .actors dec iris

/-- b.Put(k, v) on the ordered entry list of a bucket: replaces the value
at an existing key, otherwise inserts keeping keys ordered. -/
def putEntry : List (Key × String) → Key → String → List (Key × String)
  | [], k, v => [(k, v)]
  | e :: es, k, v =>
    if keyLt k e.1 then (k, v) :: e :: es
    else if k = e.1 then (k, v) :: es
    else e :: putEntry es k v

/-- save(db, rootBkt, bucket, it).  The jsonld.Marshal codec is the
parameter enc; a failure there returns before the update transaction is
opened.  The third component is the store state after the call. -/
def save (db : DB) (bid : BucketID) (enc : Item → Option String) (it : Item) :
    Item × Option Err × DB :=
  match enc it with
  | none => (it, some Err.codec, db)
  | some bs =>
    if !db.rootOk then (it, some Err.invalidBucket, db)
    else if !db.rootWritable then (it, some Err.nonWritable, db)
    else
      match db.bucket bid with
      | none => (it, some Err.invalidBucket, db)
      | some b =>
        if !b.writable then (it, some Err.nonWritable, db)
        else (it, none, db.setBucket bid (some {b with entries := putEntry b.entries it.key bs}))

/-- cb.Get(k): exact-key lookup in a bucket's entry list. -/
def getKey : List (Key × String) → Key → Option String
  | [], _ => none
  | e :: es, k => if e.1 = k then some e.2 else getKey es k

/-- The materialized ordered collection returned by LoadCollection
(id, constant OrderedCollection type, resolved items, total count). -/
structure OrderedCol where
  id : Key
  orderedItems : List Item := []
  totalItems : Nat := 0
deriving DecidableEq, Repr

/-- The body of LoadCollection's loop over f.IRIs(), for one filter IRI.
cb.Get is exact-key (getKey); a missing key yields a nil blob on which
jsonld.Unmarshal always fails, so both the missing and the undecodable
case leave ret unchanged.  On success a fresh ordered collection is
built; the classification loop inspects only the first member (its body
ends in break) and sets one flag per bucket name contained in that first
member identifier; the three dispatch ifs then run in source order
activities, actors, objects, each overwriting OrderedItems and
TotalItems, and the error of each inner load is assigned to the
if-scoped shadowed err of the enclosing Unmarshal check and hence
dropped. -/
def colStep (db : DB) (dec : String → Option Item)
    (decList : String → Option (List Key)) (centries : List (Key × String))
    (ret : Option OrderedCol) (iri : Key) : Option OrderedCol :=
  match getKey centries iri with
  | none => ret
  | some blob =>
    match decList blob with
    | none => ret
    | some members =>
      let col : OrderedCol := {id := iri}
      let sActivities :=
        match members with
        | [] => false
        | m :: _ => containsSub m bucketActivitiesKey
      let sActors :=
        match members with
        | [] => false
        | m :: _ => containsSub m bucketActorsKey
      let sObjects :=
        match members with
        | [] => false
        | m :: _ => containsSub m bucketObjectsKey
      let col :=
        if sActivities then
          let r := loadActivities db dec members
          {col with orderedItems := r.1, totalItems := r.2.1}
        else col
      let col :=
        if sActors then
          let r := loadActors db dec members
          {col with orderedItems := r.1, totalItems := r.2.1}
        else col
      let col :=
        if sObjects then
          let r := loadObjects db dec members
          {col with orderedItems := r.1, totalItems := r.2.1}
        else col
      some col

/-- LoadCollection(f): ret starts nil and is set by each successfully
decoded filter IRI (so the last one wins); the view closure returns nil
unless the root or collections bucket is missing. -/
def loadCollection (db : DB) (dec : String → Option Item)
    (decList : String → Option (List Key)) (iris : List Key) :
    Option OrderedCol × Option Err :=
  if !db.rootOk then (none, some Err.invalidBucket)
  else
    match db.collections with
    | none => (none, some Err.invalidBucket)
    | some cb =>
      (iris.foldl (colStep db dec decList cb.entries) none, none)

/-- as.ActivityTypes of the external activitystreams library: the
activity type vocabulary. -/
def activityTypes : List String :=
  ["Accept", "Add", "Announce", "Block", "Create", "Delete", "Dislike",
   "Flag", "Follow", "Ignore", "Invite", "Join", "Leave", "Like", "Listen",
   "Move", "Offer", "Question", "Reject", "Read", "Remove",
   "TentativeReject", "TentativeAccept", "Travel", "Undo", "Update", "View"]

/-- as.ActorTypes of the external activitystreams library. -/
def actorTypes : List String :=
  ["Application", "Group", "Organization", "Person", "Service"]

/-- as.ObjectTypes of the external activitystreams library. -/
def objectTypes : List String :=
  ["Article", "Audio", "Document", "Event", "Image", "Note", "Page",
   "Place", "Profile", "Relationship", "Tombstone", "Video"]

/-- Result of GenerateID: ok id models "return id, nil", err id models
"return id, conversionError", and panic models the nil-pointer
dereference a.ID = id executed when as.ToActivity has failed and
returned a nil activity pointer. -/
inductive GenResult
  | ok (id : String)
  | err (id : String)
  | panic
deriving DecidableEq, Repr

/-- GenerateID(it, partOf, by).  The random uuid suffix is a parameter.
The activity branch returns *it.GetID() unchanged when the conversion
succeeds (its err == nil test is inverted relative to the sibling
branches); when the conversion fails the nil activity pointer is
dereferenced by a.ID = id.  The actor/object branch dispatches on the
concrete sub-type, returning the pre-existing identifier with the error
when the conversion fails, and the freshly minted identifier otherwise.
Any other type falls through to "return *it.GetID(), nil". -/
def generateID (it : Item) (partOf : String) (uuid : String) : GenResult :=
  let id := partOf.toLower ++ "/" ++ uuid
  if activityTypes.contains it.tp then
    if it.toActivityOk then GenResult.ok it.id
    else GenResult.panic
  else if actorTypes.contains it.tp || objectTypes.contains it.tp then
    if it.tp = "Place" then
      if it.toPlaceOk then GenResult.ok id else GenResult.err it.id
    else if it.tp = "Profile" then
      if it.toProfileOk then GenResult.ok id else GenResult.err it.id
    else if it.tp = "Relationship" then
      if it.toRelationshipOk then GenResult.ok id else GenResult.err it.id
    else if it.tp = "Tombstone" then
      if it.toTombstoneOk then GenResult.ok id else GenResult.err it.id
    else
      if it.toObjectOk then GenResult.ok id else GenResult.err it.id
  else GenResult.ok it.id

/-- SaveActivity: save into the activities bucket (the log hook emitted on
success carries no data and is omitted). -/
def saveActivity (db : DB) (enc : Item → Option String) (it : Item) :
    Item × Option Err × DB :=
  save db .activities enc it

/-- SaveActor: save into the actors bucket. -/
def saveActor (db : DB) (enc : Item → Option String) (it : Item) :
    Item × Option Err × DB :=
  save db .actors enc it

/-- SaveObject: save into the objects bucket. -/
def saveObject (db : DB) (enc : Item → Option String) (it : Item) :
    Item × Option Err × DB :=
  save db .objects enc it

/-- The member items a LoadCollection call resolves, summarised as a
single choice: the classification reads only the first member identifier
and, because the three dispatch assignments overwrite one another in
source order activities, actors, objects, the bucket name checked last
wins when several are contained. -/
def lastWinsDispatch (db : DB) (dec : String → Option Item)
    (members : List Key) : List Item :=
  match members with
  | [] => []
  | m :: _ =>
    if containsSub m bucketObjectsKey then (loadObjects db dec members).1
    else if containsSub m bucketActorsKey then (loadActors db dec members).1
    else if containsSub m bucketActivitiesKey then (loadActivities db dec members).1
    else []

/-- The key order on bucket entries (the order in which a bolt cursor
visits them). -/
def entryLt (a b : Key × String) : Prop := keyLt a.1 b.1 = true

/-- Concrete test items and stores used to instantiate the theorems
below on explicit inputs. -/
def itemA : Item := {id := "http://x/objects/a", tp := "Note"}

def itemA1 : Item := {id := "http://x/objects/a1", tp := "Note"}

def itemA2 : Item := {id := "http://x/objects/a2", tp := "Note"}

def itemB1 : Item := {id := "http://x/objects/b1", tp := "Note"}

/-- A decoder for the concrete stores: the blobs v1, v2, w1, va decode to
the items above, anything else fails to decode. -/
def decX : String → Option Item := fun v =>
  if v = "va" then some itemA
  else if v = "v1" then some itemA1
  else if v = "v2" then some itemA2
  else if v = "w1" then some itemB1
  else none

/-- An encoder that serialises itemA and fails on everything else. -/
def encX : Item → Option String := fun it =>
  if it.id = "http://x/objects/a" then some "va" else none

/-- An encoder that always fails. -/
def encFail : Item → Option String := fun _ => none

/-- An objects bucket holding a key that extends itemA's key. -/
def bRT : Bucket := {entries := [("http://x/objects/a1".toList, "v1")]}

/-- A store whose objects bucket holds a key extending itemA's key. -/
def dbRT : DB := {objects := some bRT}

/-- A bucket with three object entries in key order. -/
def bOrd : Bucket := {entries :=
  [("http://x/objects/a1".toList, "v1"), ("http://x/objects/a2".toList, "v2"),
   ("http://x/objects/b1".toList, "w1")]}

/-- A store with three object entries in key order. -/
def dbOrd : DB := {objects := some bOrd}

/-- A bucket with an undecodable value between two good object entries. -/
def bCorrupt : Bucket := {entries :=
  [("http://x/objects/a1".toList, "v1"), ("http://x/objects/a2".toList, "bad"),
   ("http://x/objects/b1".toList, "w1")]}

/-- A store with an undecodable value between two good object entries. -/
def dbCorrupt : DB := {objects := some bCorrupt}

/-- An Item carrying an Activity type tag whose dynamic representation is
not a concrete Activity value (for instance an as.Object with Type set to
Create), so the as.ToActivity type switch fails on it. -/
def activityConvFail : Item :=
  {id := "http://example.com/activities/1", tp := "Create", toActivityOk := false}

/-- An Item carrying the Place type whose as.ToPlace conversion fails. -/
def placeConvFail : Item :=
  {id := "http://example.com/objects/1", tp := "Place", toPlaceOk := false}

/-- A member list whose first identifier names no bucket while the second
contains the activities bucket name. -/
def colMembers : List Key :=
  ["http://x/z".toList, "http://x/activities/1".toList]

def actItem : Item := {id := "http://x/activities/1", tp := "Create"}

/-- A store holding one activity and one collection pointing at it via
colMembers. -/
def dbCol : DB :=
  {activities := some {entries := [("http://x/activities/1".toList, "act1")]},
   collections := some {entries := [("http://x/cols/inbox".toList, "colblob")]}}

def decCol : String → Option Item := fun v =>
  if v = "act1" then some actItem else none

def decListCol : String → Option (List Key) := fun b =>
  if b = "colblob" then some colMembers else none

/-- A member list whose first identifier contains both the activities and
the objects bucket names. -/
def mixMembers : List Key := ["http://x/activities/objects/1".toList]

def mixItemA : Item := {id := "http://x/activities/objects/1", tp := "Create"}

def mixItemO : Item := {id := "http://x/activities/objects/1", tp := "Note"}

/-- A store where the mixed member identifier resolves to different items
in the activities and objects buckets. -/
def dbMix : DB :=
  {activities := some {entries := [("http://x/activities/objects/1".toList, "mixA")]},
   objects := some {entries := [("http://x/activities/objects/1".toList, "mixO")]},
   collections := some {entries := [("http://x/cols/mixed".toList, "mixblob")]}}

def decMix : String → Option Item := fun v =>
  if v = "mixA" then some mixItemA
  else if v = "mixO" then some mixItemO
  else none

def decListMix : String → Option (List Key) := fun b =>
  if b = "mixblob" then some mixMembers else none

/-- A store whose collections bucket holds only an undecodable blob. -/
def dbCol8 : DB := {collections := some {entries := [("http://x/cols/c".toList, "junk")]}}

def decNone : String → Option Item := fun _ => none

def decListNone : String → Option (List Key) := fun _ => none

theorem keyLt_irrefl (a : Key) : keyLt a a = false := by
  induction a with
  | nil => rfl
  | cons c t ih => simp [keyLt, ih]

theorem keyLt_trans {a b c : Key} (hab : keyLt a b = true) (hbc : keyLt b c = true) :
    keyLt a c = true := by
  induction a generalizing b c with
  | nil =>
    cases b with
    | nil => simp [keyLt] at hab
    | cons y ys =>
      cases c with
      | nil => simp [keyLt] at hbc
      | cons z zs => rfl
  | cons x xs ih =>
    cases b with
    | nil => simp [keyLt] at hab
    | cons y ys =>
      cases c with
      | nil => simp [keyLt] at hbc
      | cons z zs =>
        simp only [keyLt, Bool.or_eq_true, Bool.and_eq_true, decide_eq_true_eq] at hab hbc ⊢
        rcases hab with h1 | ⟨h1, h1'⟩
        · rcases hbc with h2 | ⟨h2, h2'⟩
          · exact Or.inl (lt_trans h1 h2)
          · exact Or.inl (h2 ▸ h1)
        · rcases hbc with h2 | ⟨h2, h2'⟩
          · exact Or.inl (h1 ▸ h2)
          · exact Or.inr ⟨h1.trans h2, ih h1' h2'⟩

theorem keyLt_total {a b : Key} (hab : keyLt a b = false) (hne : a ≠ b) :
    keyLt b a = true := by
  induction a generalizing b with
  | nil =>
    cases b with
    | nil => exact absurd rfl hne
    | cons y ys => simp [keyLt] at hab
  | cons x xs ih =>
    cases b with
    | nil => rfl
    | cons y ys =>
      simp only [keyLt, Bool.or_eq_false_iff, Bool.and_eq_false_iff, decide_eq_false_iff_not,
        Bool.or_eq_true, Bool.and_eq_true, decide_eq_true_eq] at hab ⊢
      rcases hab with ⟨hxy, h2⟩
      rcases h2 with h2 | h2
      · rcases lt_trichotomy x y with h | h | h
        · exact absurd h hxy
        · simp [h] at h2
        · exact Or.inl h
      · rcases lt_trichotomy x y with h | h | h
        · exact absurd h hxy
        · subst h
          have hne' : xs ≠ ys := fun he => hne (by rw [he])
          exact Or.inr ⟨rfl, ih h2 hne'⟩
        · exact Or.inl h

/-- A key with prefix p is not strictly below p. -/
theorem keyPfx_not_lt {p k : Key} (h : keyPfx p k = true) : keyLt k p = false := by
  induction p generalizing k with
  | nil =>
    cases k with
    | nil => rfl
    | cons c t => rfl
  | cons a ps ih =>
    cases k with
    | nil => simp [keyPfx] at h
    | cons b ks =>
      simp only [keyPfx, Bool.and_eq_true, decide_eq_true_eq] at h
      rcases h with ⟨hab, h2⟩
      subst hab
      simp [keyLt, ih h2]

/-- Among keys at or above p, the ones having prefix p sort strictly
below the ones that do not. -/
theorem keyPfx_lt_of_not_pfx {p k k' : Key} (hge : keyLt k' p = false)
    (hnp : keyPfx p k' = false) (hp : keyPfx p k = true) : keyLt k k' = true := by
  induction p generalizing k k' with
  | nil => simp [keyPfx] at hnp
  | cons a ps ih =>
    cases k with
    | nil => simp [keyPfx] at hp
    | cons b ks =>
      simp only [keyPfx, Bool.and_eq_true, decide_eq_true_eq] at hp
      rcases hp with ⟨hab, hpk⟩
      subst hab
      cases k' with
      | nil => simp [keyLt] at hge
      | cons c ks' =>
        simp only [keyLt, Bool.or_eq_false_iff, Bool.and_eq_false_iff,
          decide_eq_false_iff_not, Bool.or_eq_true, Bool.and_eq_true,
          decide_eq_true_eq] at hge ⊢
        rcases hge with ⟨hca, h2⟩
        simp only [keyPfx] at hnp
        rcases lt_trichotomy a c with h | h | h
        · exact Or.inl h
        · subst h
          simp only [Bool.and_eq_false_iff, decide_eq_false_iff_not] at hnp
          rcases hnp with hnp | hnp
          · exact absurd trivial hnp
          rcases h2 with h2 | h2
          · exact absurd rfl h2
          · exact Or.inr ⟨rfl, ih h2 hnp hpk⟩
        · exact absurd h hca

theorem keyLt_of_pfx {p k : Key} (h : keyLt k p = true) : keyPfx p k = false := by
  cases hp : keyPfx p k
  · rfl
  · rw [keyPfx_not_lt hp] at h
    exact absurd h Bool.false_ne_true

theorem takeWhile_pfx_eq_filter {p : Key} {es : List (Key × String)}
    (hge : ∀ e ∈ es, keyLt e.1 p = false) (hs : es.Pairwise entryLt) :
    es.takeWhile (fun e => keyPfx p e.1) = es.filter (fun e => keyPfx p e.1) := by
  induction es with
  | nil => rfl
  | cons e es ih =>
    rcases List.pairwise_cons.mp hs with ⟨he, hs'⟩
    cases h : keyPfx p e.1 with
    | true =>
      simp only [List.takeWhile_cons, List.filter_cons, h, if_true]
      exact congrArg (List.cons e) (ih (fun x hx => hge x (List.mem_cons_of_mem e hx)) hs')
    | false =>
      simp only [List.takeWhile_cons, List.filter_cons, h, Bool.false_eq_true, if_false]
      refine (List.filter_eq_nil_iff.mpr fun x hx hpx => ?_).symm
      have hlt : keyLt x.1 e.1 = true :=
        keyPfx_lt_of_not_pfx (hge e (List.mem_cons_self e es)) h (by simpa using hpx)
      have hcontra := keyLt_trans (he x hx) hlt
      rw [keyLt_irrefl] at hcontra
      exact Bool.false_ne_true hcontra

/-- For a key-ordered bucket, the cursor scan for prefix p returns
exactly the entries whose key has prefix p, in stored (key) order. -/
theorem scanPfx_eq_filter {es : List (Key × String)} (p : Key)
    (hs : es.Pairwise entryLt) :
    scanPfx es p = es.filter (fun e => keyPfx p e.1) := by
  induction es with
  | nil => rfl
  | cons e es ih =>
    rcases List.pairwise_cons.mp hs with ⟨he, hs'⟩
    cases hlt : keyLt e.1 p with
    | true =>
      have hdw : scanPfx (e :: es) p = scanPfx es p := by
        simp only [scanPfx, seekTo, List.dropWhile_cons, hlt, if_true]
      rw [hdw, ih hs']
      simp only [List.filter_cons, keyLt_of_pfx hlt, Bool.false_eq_true, if_false]
    | false =>
      have hseek : seekTo (e :: es) p = e :: es := by
        simp only [seekTo, List.dropWhile_cons, hlt, Bool.false_eq_true, if_false]
      have hge : ∀ x ∈ e :: es, keyLt x.1 p = false := by
        intro x hx
        rcases List.mem_cons.mp hx with h | h
        · rw [h]; exact hlt
        · cases hxp : keyLt x.1 p with
          | false => rfl
          | true =>
            have hcontra := keyLt_trans (he x h) hxp
            rw [hlt] at hcontra
            exact absurd hcontra Bool.false_ne_true
      simp only [scanPfx, hseek]
      exact takeWhile_pfx_eq_filter hge hs

theorem foldl_append_flatten {α β : Type} (g : β → List α) (acc : List α)
    (l : List β) :
    l.foldl (fun col p => col ++ g p) acc = acc ++ (l.map g).flatten := by
  induction l generalizing acc with
  | nil => simp
  | cons p l ih => simp [ih, List.append_assoc]

theorem putEntry_mem {es : List (Key × String)} {k : Key} {v : String}
    {x : Key × String} (hx : x ∈ putEntry es k v) : x = (k, v) ∨ x ∈ es := by
  induction es with
  | nil => simpa [putEntry] using hx
  | cons e es ih =>
    simp only [putEntry] at hx
    split at hx
    · simpa using hx
    · split at hx
      · rcases List.mem_cons.mp hx with h | h
        · exact Or.inl h
        · exact Or.inr (List.mem_cons_of_mem e h)
      · rcases List.mem_cons.mp hx with h | h
        · exact Or.inr (h ▸ List.mem_cons_self e es)
        · rcases ih h with h' | h'
          · exact Or.inl h'
          · exact Or.inr (List.mem_cons_of_mem e h')

theorem putEntry_sorted {es : List (Key × String)} {k : Key} {v : String}
    (hs : es.Pairwise entryLt) : (putEntry es k v).Pairwise entryLt := by
  induction es with
  | nil => simp [putEntry, entryLt]
  | cons e es ih =>
    rcases List.pairwise_cons.mp hs with ⟨he, hs'⟩
    simp only [putEntry]
    split
    · refine List.pairwise_cons.mpr ⟨?_, hs⟩
      intro x hx
      rcases List.mem_cons.mp hx with h | h
      · rw [h]; assumption
      · exact keyLt_trans (by assumption) (he x h)
    · split
      · rename_i hke
        refine List.pairwise_cons.mpr ⟨?_, hs'⟩
        intro x hx
        show keyLt (k, v).1 x.1 = true
        rw [show (k, v).1 = e.1 from hke]
        exact he x hx
      · rename_i hnlt hne
        refine List.pairwise_cons.mpr ⟨?_, ih hs'⟩
        intro x hx
        rcases putEntry_mem hx with h | h
        · rw [h]
          show keyLt e.1 k = true
          exact keyLt_total (by simpa using hnlt) (fun hk => hne hk)
        · exact he x h

theorem keyPfx_refl (k : Key) : keyPfx k k = true := by
  induction k with
  | nil => rfl
  | cons c t ih => simp [keyPfx, ih]

/-- After putting (k, v) into a key-ordered bucket none of whose other
keys extends k, the entries with prefix k are exactly the new entry. -/
theorem putEntry_filter_self {es : List (Key × String)} {k : Key} {v : String}
    (hs : es.Pairwise entryLt) (hu : ∀ e ∈ es, keyPfx k e.1 = true → e.1 = k) :
    (putEntry es k v).filter (fun e => keyPfx k e.1) = [(k, v)] := by
  induction es with
  | nil => simp [putEntry, keyPfx_refl]
  | cons e es ih =>
    rcases List.pairwise_cons.mp hs with ⟨he, hs'⟩
    have hnotes : ∀ x ∈ es, keyLt e.1 x.1 = true → keyPfx k x.1 = true → x.1 ≠ k →
        False := fun x hx _ hpx hne => hne (hu x (List.mem_cons_of_mem e hx) hpx)
    simp only [putEntry]
    split
    · rename_i hke
      have hef : keyPfx k e.1 = false := by
        cases hp : keyPfx k e.1
        · rfl
        · have : e.1 = k := hu e (List.mem_cons_self e es) hp
          rw [this] at hke
          rw [keyLt_irrefl] at hke
          exact absurd hke (by simp)
      have hxf : ∀ x ∈ es, keyPfx k x.1 = false := by
        intro x hx
        cases hp : keyPfx k x.1
        · rfl
        · have hxk : x.1 = k := hu x (List.mem_cons_of_mem e hx) hp
          have : keyLt k x.1 = true := keyLt_trans hke (he x hx)
          rw [hxk, keyLt_irrefl] at this
          exact absurd this (by simp)
      rw [List.filter_cons_of_pos (by simp [keyPfx_refl]),
        List.filter_cons_of_neg (by simp [hef])]
      exact congrArg _ (List.filter_eq_nil_iff.mpr fun x hx hp => by
        simp [hxf x hx] at hp)
    · split
      · rename_i hke
        have hxf : ∀ x ∈ es, keyPfx k x.1 = false := by
          intro x hx
          cases hp : keyPfx k x.1
          · rfl
          · have hxk : x.1 = k := hu x (List.mem_cons_of_mem e hx) hp
            have : keyLt k x.1 = true := hke ▸ he x hx
            rw [hxk, keyLt_irrefl] at this
            exact absurd this (by simp)
        rw [List.filter_cons_of_pos (by simp [keyPfx_refl])]
        exact congrArg _ (List.filter_eq_nil_iff.mpr fun x hx hp => by
          simp [hxf x hx] at hp)
      · rename_i hnlt hne
        have hef : keyPfx k e.1 = false := by
          cases hp : keyPfx k e.1
          · rfl
          · exact absurd (hu e (List.mem_cons_self e es) hp) (fun h => hne h.symm)
        rw [List.filter_cons_of_neg (by simp [hef])]
        exact ih hs' (fun x hx hp => hu x (List.mem_cons_of_mem e hx) hp)

/-- The adapter's count is computed as the length of the returned item
list at the single return site. -/
theorem loadFromBucket_count (db : DB) (bid : BucketID)
    (dec : String → Option Item) (iris : List Key) :
    (loadFromBucket db bid dec iris).2.1 = (loadFromBucket db bid dec iris).1.length := rfl

/-- Unfolding of loadFromBucket when the root and target bucket exist. -/
theorem loadFromBucket_some {db : DB} {bid : BucketID} {b : Bucket}
    (hroot : db.rootOk = true) (hb : db.bucket bid = some b)
    (dec : String → Option Item) (iris : List Key) :
    loadFromBucket db bid dec iris =
      (iris.foldl
        (fun col p => col ++ (scanPfx b.entries p).filterMap (fun e => dec e.2)) [],
       (iris.foldl
        (fun col p => col ++ (scanPfx b.entries p).filterMap (fun e => dec e.2)) []).length,
       none) := by
  simp only [loadFromBucket, hroot, hb, Bool.not_true]
  rfl

instance entryLtDec : DecidableRel entryLt := fun a b =>
  if h : keyLt a.1 b.1 = true then .isTrue h else .isFalse h

theorem bucket_setBucket (db : DB) (bid : BucketID) (ob : Option Bucket) :
    (db.setBucket bid ob).bucket bid = ob := by
  cases bid <;> rfl

theorem rootOk_setBucket (db : DB) (bid : BucketID) (ob : Option Bucket) :
    (db.setBucket bid ob).rootOk = db.rootOk := by
  cases bid <;> rfl

theorem scanPfx_eq_nil {es : List (Key × String)} {p : Key}
    (h : ∀ e ∈ es, keyPfx p e.1 = false) : scanPfx es p = [] := by
  unfold scanPfx
  cases hs : seekTo es p with
  | nil => rfl
  | cons e t =>
    have he : e ∈ es := by
      have hsub : List.Sublist (seekTo es p) es := List.dropWhile_sublist _
      exact hsub.subset (hs ▸ List.mem_cons_self e t)
    simp [List.takeWhile_cons, h e he]

/-- C9: each per-kind load returns a count equal to the length of the
returned item sequence, on both the success and the error paths. -/
theorem c9_count_eq_length (db : DB) (dec : String → Option Item)
    (iris : List Key) :
    (loadActors db dec iris).2.1 = (loadActors db dec iris).1.length ∧
    (loadActivities db dec iris).2.1 = (loadActivities db dec iris).1.length ∧
    (loadObjects db dec iris).2.1 = (loadObjects db dec iris).1.length :=
  ⟨rfl, rfl, rfl⟩

/-- C10: when the codec fails to serialise the Item, each per-kind save
returns the same Item with the serialisation error and leaves the store
state unchanged (the failure happens before the write transaction). -/
theorem c10_codec_error_atomic (db : DB) (enc : Item → Option String)
    (it : Item) (h : enc it = none) :
    saveActivity db enc it = (it, some Err.codec, db) ∧
    saveActor db enc it = (it, some Err.codec, db) ∧
    saveObject db enc it = (it, some Err.codec, db) := by
  refine ⟨?_, ?_, ?_⟩ <;> simp [saveActivity, saveActor, saveObject, save, h]

theorem c10_witness :
    saveActivity dbOrd encFail itemA = (itemA, some Err.codec, dbOrd) ∧
    saveActor dbOrd encFail itemA = (itemA, some Err.codec, dbOrd) ∧
    saveObject dbOrd encFail itemA = (itemA, some Err.codec, dbOrd) :=
  c10_codec_error_atomic dbOrd encFail itemA rfl

/-- C7: a per-kind load whose filter prefixes match no stored key of the
(present) target bucket returns an empty sequence, a zero count and no
error. -/
theorem c7_disjoint_empty {db : DB} {bid : BucketID} {b : Bucket}
    (hroot : db.rootOk = true) (hb : db.bucket bid = some b)
    (dec : String → Option Item) {iris : List Key}
    (hdisj : ∀ e ∈ b.entries, ∀ p ∈ iris, keyPfx p e.1 = false) :
    loadFromBucket db bid dec iris = ([], 0, none) := by
  rw [loadFromBucket_some hroot hb]
  have hfold : iris.foldl
      (fun col p => col ++ (scanPfx b.entries p).filterMap (fun e => dec e.2)) [] = [] := by
    rw [foldl_append_flatten]
    simp only [List.nil_append, List.flatten_eq_nil_iff]
    intro l hl
    rcases List.mem_map.mp hl with ⟨p, hp, he⟩
    rw [← he, scanPfx_eq_nil (fun e hees => hdisj e hees p hp)]
    rfl
  rw [hfold]
  rfl

theorem c7_witness :
    loadFromBucket dbOrd .objects decX ["http://y/objects/".toList] = ([], 0, none) :=
  @c7_disjoint_empty dbOrd .objects bOrd rfl rfl decX _ (by decide)

/-- C4: for a key-ordered bucket, a per-kind load returns the matches of
each filter prefix concatenated in filter order, each prefix's matches in
stored (lexicographic) key order, with no de-duplication, interleaving or
global re-sort. -/
theorem c4_concat_in_filter_order {db : DB} {bid : BucketID} {b : Bucket}
    (hroot : db.rootOk = true) (hb : db.bucket bid = some b)
    (hs : b.entries.Pairwise entryLt) (dec : String → Option Item)
    (iris : List Key) :
    (loadFromBucket db bid dec iris).1 =
      (iris.map (fun p =>
        (b.entries.filter (fun e => keyPfx p e.1)).filterMap (fun e => dec e.2))).flatten := by
  rw [loadFromBucket_some hroot hb]
  show iris.foldl
      (fun col p => col ++ (scanPfx b.entries p).filterMap (fun e => dec e.2)) [] = _
  rw [foldl_append_flatten]
  rw [List.nil_append]
  have hfun : (fun p => (scanPfx b.entries p).filterMap (fun e => dec e.2))
      = (fun p => (b.entries.filter (fun e => keyPfx p e.1)).filterMap (fun e => dec e.2)) := by
    funext p
    rw [scanPfx_eq_filter p hs]
  rw [hfun]

theorem c4_witness :
    (loadFromBucket dbOrd .objects decX
      ["http://x/objects/b".toList, "http://x/objects/a".toList]).1 =
      ((["http://x/objects/b".toList, "http://x/objects/a".toList] : List Key).map
        (fun p => (bOrd.entries.filter
          (fun e => keyPfx p e.1)).filterMap (fun e => decX e.2))).flatten :=
  @c4_concat_in_filter_order dbOrd .objects bOrd rfl rfl (by decide) decX _

/-- C5: removing a stored value the decoder fails on does not change the
result of a per-kind load, and the load reports no error: a corrupt
record is silently dropped and never fails the query. -/
theorem c5_corrupt_record_dropped {db : DB} {bid : BucketID} {b : Bucket}
    (hroot : db.rootOk = true) (hb : db.bucket bid = some b)
    {es1 es2 : List (Key × String)} {k : Key} {v : String}
    (hsplit : b.entries = es1 ++ (k, v) :: es2) (hs : b.entries.Pairwise entryLt)
    (dec : String → Option Item) (hdec : dec v = none) (iris : List Key) :
    (loadFromBucket db bid dec iris).2.2 = none ∧
    loadFromBucket db bid dec iris =
      loadFromBucket (db.setBucket bid (some {b with entries := es1 ++ es2}))
        bid dec iris := by
  have hroot2 : (db.setBucket bid (some {b with entries := es1 ++ es2})).rootOk = true := by
    rw [rootOk_setBucket]; exact hroot
  have hb2 := bucket_setBucket db bid (some {b with entries := es1 ++ es2})
  have hsub : List.Sublist (es1 ++ es2) (es1 ++ (k, v) :: es2) :=
    List.Sublist.append_left (List.sublist_cons_self _ _) es1
  have hs2 : (es1 ++ es2).Pairwise entryLt :=
    List.Pairwise.sublist hsub (hsplit ▸ hs)
  have hpt : (fun p => (scanPfx b.entries p).filterMap (fun e => dec e.2))
      = (fun p => (scanPfx (es1 ++ es2) p).filterMap (fun e => dec e.2)) := by
    funext p
    rw [scanPfx_eq_filter p hs, scanPfx_eq_filter p hs2, hsplit]
    simp only [List.filter_append, List.filterMap_append, List.filter_cons]
    cases hkp : keyPfx p k with
    | true => simp [hkp, List.filterMap_cons, hdec]
    | false => simp [hkp]
  rw [loadFromBucket_some hroot hb, loadFromBucket_some hroot2 hb2]
  constructor
  · rfl
  · have hfold : iris.foldl
        (fun col p => col ++ (scanPfx b.entries p).filterMap (fun e => dec e.2)) []
        = iris.foldl
        (fun col p => col ++ (scanPfx (es1 ++ es2) p).filterMap (fun e => dec e.2)) [] := by
      rw [foldl_append_flatten, foldl_append_flatten, hpt]
    rw [hfold]

theorem c5_witness :
    (loadFromBucket dbCorrupt .objects decX ["http://x/objects/a".toList]).2.2 = none ∧
    loadFromBucket dbCorrupt .objects decX ["http://x/objects/a".toList] =
      loadFromBucket (dbCorrupt.setBucket .objects (some {bCorrupt with entries :=
          [("http://x/objects/a1".toList, "v1"), ("http://x/objects/b1".toList, "w1")]}))
        .objects decX ["http://x/objects/a".toList] :=
  @c5_corrupt_record_dropped dbCorrupt .objects bCorrupt rfl rfl
    [("http://x/objects/a1".toList, "v1")] [("http://x/objects/b1".toList, "w1")]
    ("http://x/objects/a2".toList) "bad" rfl (by decide) decX (by decide) _

/-- C6 (amended): saving an Item and loading with the single prefix equal
to its identifier returns exactly that Item, provided the codec
round-trips the Item and no other stored key of the bucket has the
Item's identifier as a proper prefix. -/
theorem c6_round_trip {db : DB} {bid : BucketID} {b : Bucket}
    (hroot : db.rootOk = true) (hw : db.rootWritable = true)
    (hb : db.bucket bid = some b) (hbw : b.writable = true)
    (hs : b.entries.Pairwise entryLt)
    {enc : Item → Option String} {dec : String → Option Item} {it : Item}
    {bs : String} (henc : enc it = some bs) (hdec : dec bs = some it)
    (hnopfx : ∀ e ∈ b.entries, keyPfx it.key e.1 = true → e.1 = it.key) :
    loadFromBucket (save db bid enc it).2.2 bid dec [it.key] = ([it], 1, none) := by
  have hsave : (save db bid enc it).2.2
      = db.setBucket bid (some {b with entries := putEntry b.entries it.key bs}) := by
    simp [save, henc, hroot, hw, hb, hbw]
  rw [hsave]
  have hroot2 : (db.setBucket bid
      (some {b with entries := putEntry b.entries it.key bs})).rootOk = true := by
    rw [rootOk_setBucket]; exact hroot
  rw [loadFromBucket_some hroot2 (bucket_setBucket db bid _)]
  have hscan : scanPfx (putEntry b.entries it.key bs) it.key = [(it.key, bs)] := by
    rw [scanPfx_eq_filter _ (putEntry_sorted hs), putEntry_filter_self hs hnopfx]
  simp [hscan, hdec]

theorem c6_witness :
    loadFromBucket (save ({} : DB) .objects encX itemA).2.2 .objects decX [itemA.key]
      = ([itemA], 1, none) :=
  @c6_round_trip {} .objects {entries := []} rfl rfl rfl rfl (by decide)
    encX decX itemA "va" (by decide) (by decide) (by decide)

theorem c6_counterexample :
    (loadFromBucket (save dbRT .objects encX itemA).2.2 .objects decX [itemA.key]).1
      = [itemA, itemA1] ∧ itemA1 ≠ itemA := by
  decide

/-- Unfolding of LoadCollection when the root and collections bucket
exist. -/
theorem loadCollection_some {db : DB} {cb : Bucket} (hroot : db.rootOk = true)
    (hcb : db.collections = some cb) (dec : String → Option Item)
    (decList : String → Option (List Key)) (iris : List Key) :
    loadCollection db dec decList iris =
      (iris.foldl (colStep db dec decList cb.entries) none, none) := by
  simp only [loadCollection, hroot, hcb, Bool.not_true]
  rfl

/-- C8: when every filter IRI has no stored or no decodable entry in the
collections bucket, LoadCollection returns a nil collection and a nil
error. -/
theorem c8_missing_collection_nil_nil {db : DB} {cb : Bucket}
    (hroot : db.rootOk = true) (hcb : db.collections = some cb)
    (dec : String → Option Item) (decList : String → Option (List Key))
    {iris : List Key}
    (hmiss : ∀ iri ∈ iris, ∀ blob, getKey cb.entries iri = some blob →
      decList blob = none) :
    loadCollection db dec decList iris = (none, none) := by
  rw [loadCollection_some hroot hcb]
  have hfold : ∀ l : List Key,
      (∀ iri ∈ l, ∀ blob, getKey cb.entries iri = some blob → decList blob = none) →
      l.foldl (colStep db dec decList cb.entries) none = none := by
    intro l
    induction l with
    | nil => intro _; rfl
    | cons i t ih =>
      intro hl
      rw [List.foldl_cons]
      have hstep : colStep db dec decList cb.entries none i = none := by
        cases hk : getKey cb.entries i with
        | none => simp [colStep, hk]
        | some blob => simp [colStep, hk, hl i (List.mem_cons_self i t) blob hk]
      rw [hstep]
      exact ih (fun x hx => hl x (List.mem_cons_of_mem i hx))
  rw [hfold iris hmiss]

theorem c8_witness :
    loadCollection dbCol8 decNone decListNone
      ["http://x/cols/c".toList, "http://x/cols/d".toList] = (none, none) :=
  @c8_missing_collection_nil_nil dbCol8
    {entries := [("http://x/cols/c".toList, "junk")]} rfl rfl decNone decListNone
    _ (fun _ _ _ _ => rfl)

/-- C1 (amended): LoadCollection classifies a collection by inspecting
only the first member identifier, and when that identifier contains
several bucket names the dispatch that runs last wins, so the effective
priority is objects over actors over activities; members are resolved
from the chosen bucket with the member list as the filter, and the
total is the number of resolved items. -/
theorem c1_classification_first_member {db : DB} {cb : Bucket}
    (hroot : db.rootOk = true) (hcb : db.collections = some cb)
    (dec : String → Option Item) (decList : String → Option (List Key))
    {ck : Key} {blob : String} {members : List Key}
    (hget : getKey cb.entries ck = some blob)
    (hdec : decList blob = some members) :
    loadCollection db dec decList [ck] =
      (some {id := ck, orderedItems := lastWinsDispatch db dec members,
             totalItems := (lastWinsDispatch db dec members).length}, none) := by
  rw [loadCollection_some hroot hcb]
  rw [show ([ck] : List Key).foldl (colStep db dec decList cb.entries) none
      = colStep db dec decList cb.entries none ck from rfl]
  simp only [colStep, hget, hdec]
  cases members with
  | nil => simp [lastWinsDispatch]
  | cons m rest =>
    simp only [lastWinsDispatch]
    cases ho : containsSub m bucketObjectsKey <;>
      cases ha : containsSub m bucketActorsKey <;>
        simp [ho, ha, loadFromBucket_count, loadActivities, loadActors,
          loadObjects] <;>
          first
          | rfl
          | (split <;> rfl)

theorem c1_witness :
    loadCollection dbMix decMix decListMix ["http://x/cols/mixed".toList] =
      (some {id := "http://x/cols/mixed".toList,
             orderedItems := lastWinsDispatch dbMix decMix mixMembers,
             totalItems := (lastWinsDispatch dbMix decMix mixMembers).length},
       none) :=
  @c1_classification_first_member dbMix
    {entries := [("http://x/cols/mixed".toList, "mixblob")]} rfl rfl decMix
    decListMix ("http://x/cols/mixed".toList) "mixblob" mixMembers
    (by decide) (by decide)

theorem c1_counterexample :
    (∃ m ∈ colMembers, containsSub m bucketActivitiesKey = true) ∧
    (loadActivities dbCol decCol colMembers).1 = [actItem] ∧
    ((loadCollection dbCol decCol decListCol ["http://x/cols/inbox".toList]).1.map
      (fun c => c.orderedItems)) = some [] ∧
    ([] : List Item) ≠ [actItem] := by
  decide

/-- C2 (amended): for an Item with an Activity type tag whose conversion
to the concrete Activity representation succeeds, GenerateID returns the
Item's pre-existing identifier unchanged and never assigns the freshly
minted identifier. -/
theorem c2_activity_existing_id (it : Item) (partOf uuid : String)
    (hact : activityTypes.contains it.tp = true) (hok : it.toActivityOk = true) :
    generateID it partOf uuid = GenResult.ok it.id := by
  have hmem : it.tp ∈ activityTypes := by simpa using hact
  simp [generateID, hmem, hok]

theorem c2_witness :
    generateID {id := "http://example.com/activities/1", tp := "Create"}
      "http://example.com/activities" "2af95735" =
      GenResult.ok "http://example.com/activities/1" :=
  c2_activity_existing_id _ _ _ (by decide) rfl

theorem c2_counterexample :
    generateID activityConvFail "http://example.com/activities" "2af95735"
      ≠ GenResult.ok activityConvFail.id ∧
    generateID activityConvFail "http://example.com/activities" "2af95735"
      = GenResult.panic := by
  decide

/-- C3: on an Item with an Activity type tag whose conversion fails, the
activity branch does not return the pre-existing identifier with the
conversion error; its inverted err == nil check lets the nil activity
pointer be dereferenced (a.ID = id), while a sibling branch such as
Place does return the pre-existing identifier with the error. -/
theorem c3_activity_conversion_failure_panics :
    generateID activityConvFail "http://example.com/activities" "2af95735"
      = GenResult.panic ∧
    generateID placeConvFail "http://example.com/objects" "2af95735"
      = GenResult.err "http://example.com/objects/1" := by
  decide

end BoltStore
